import Mathlib

/-!
Shallow embedding of `src/web_template/src/main.rs`: a CRUD web service over a
`HashMap<u64, ForexPair>` persisted wholesale to a JSON file on every mutation.

The in-memory `HashMap<u64, ForexPair>` is modelled as an association list with
unique keys; iteration order of the map is unspecified in the source, so every
order-sensitive statement below is phrased up to set membership.  `u64` keys
and ids are modelled as `Nat` (the source performs no arithmetic on them;
serde's 64-bit range checks are modelled explicitly where deserialization
happens).  `f64` prices are modelled as exact rationals: the source never
computes with prices, it only stores and serializes them.
-/

/-- Model of the Rust `ForexPair` struct (fields `id: u64`, `pair: String`,
`price: f64`). -/
structure ForexPair where
  id : Nat
  pair : String
  price : Rat
deriving DecidableEq

/-- Model of the Rust `Database` struct: `forex_pairs: HashMap<u64, ForexPair>`,
as an association list from key to record. -/
structure Database where
  forex_pairs : List (Nat × ForexPair)
deriving DecidableEq

/-- `HashMap::insert` on the association-list model: the new binding shadows
(and removes) any previous binding for the same key. -/
def insertPair (l : List (Nat × ForexPair)) (k : Nat) (v : ForexPair) :
    List (Nat × ForexPair) :=
  (k, v) :: l.filter (fun p => p.1 != k)

/-- `Database::new`. -/
def Database.new : Database := ⟨[]⟩

/-- `Database::insert`: `self.forex_pairs.insert(forex_pair.id, forex_pair)`,
returning the previous value for that key (as Rust's `HashMap::insert` does). -/
def Database.insert (db : Database) (fp : ForexPair) :
    Database × Option ForexPair :=
  (⟨insertPair db.forex_pairs fp.id fp⟩,
   (db.forex_pairs.find? (fun p => p.1 == fp.id)).map Prod.snd)

/-- `Database::get`: `self.forex_pairs.get(id)`. -/
def Database.get (db : Database) (id : Nat) : Option ForexPair :=
  (db.forex_pairs.find? (fun p => p.1 == id)).map Prod.snd

/-- `Database::get_all`: `self.forex_pairs.values().collect()`. -/
def Database.get_all (db : Database) : List ForexPair :=
  db.forex_pairs.map Prod.snd

/-- `Database::delete`: `self.forex_pairs.remove(id)` (result discarded). -/
def Database.delete (db : Database) (id : Nat) : Database :=
  ⟨db.forex_pairs.filter (fun p => p.1 != id)⟩

/-- `Database::update`: `self.forex_pairs.insert(forex_pair.id, forex_pair)`
with the previous value discarded. -/
def Database.update (db : Database) (fp : ForexPair) : Database :=
  ⟨insertPair db.forex_pairs fp.id fp⟩

/-- Invariant of every reachable `Database` state: the map has at most one
binding per key (`HashMap` semantics), and every record is stored under its
own `id` (all writes in the source go through
`forex_pairs.insert(forex_pair.id, forex_pair)`). -/
def Database.Inv (db : Database) : Prop :=
  (db.forex_pairs.map Prod.fst).Nodup ∧ ∀ p ∈ db.forex_pairs, p.1 = p.2.id

instance (db : Database) : Decidable db.Inv := by
  unfold Database.Inv; infer_instance

/-! ### Basic lemmas about the store operations -/

theorem get_insertPair_self (l : List (Nat × ForexPair)) (fp : ForexPair) :
    (Database.mk (insertPair l fp.id fp)).get fp.id = some fp := by
  simp [Database.get, insertPair, List.find?]

theorem find?_filter_ne (l : List (Nat × ForexPair)) (id : Nat) :
    (l.filter (fun p => p.1 != id)).find? (fun p => p.1 == id) = none := by
  rw [List.find?_eq_none]
  intro p hp
  rcases List.mem_filter.mp hp with ⟨-, hne⟩
  simpa using bne_iff_ne.mp hne

theorem get_delete_self (db : Database) (id : Nat) :
    (db.delete id).get id = none := by
  simp [Database.delete, Database.get, find?_filter_ne]

theorem delete_absent_noop (db : Database) (id : Nat)
    (h : db.get id = none) : db.delete id = db := by
  have hfind : db.forex_pairs.find? (fun p => p.1 == id) = none := by
    unfold Database.get at h
    exact Option.map_eq_none.mp h
  have hall := List.find?_eq_none.mp hfind
  unfold Database.delete
  congr 1
  rw [List.filter_eq_self]
  intro p hp
  simpa using fun he => by simpa [he] using hall p hp

/-! ### Claim theorems: in-memory CRUD -/

/-- C1: inserting a record `fp` into the store (`Database::insert`, as the
Create handler does) and then reading `fp.id` (`Database::get`) returns
exactly `fp`, all fields included. -/
theorem create_then_read_roundtrip (db : Database) (fp : ForexPair) :
    ((db.insert fp).1).get fp.id = some fp :=
  get_insertPair_self _ fp

/-- C2: for two distinct records sharing an id, insert of the first then
update with the second makes `get` on that id return the second record:
the update is a full replacement (last write wins). -/
theorem update_last_write_wins (db : Database) (r1 r2 : ForexPair)
    (hid : r1.id = r2.id) (hne : r1 ≠ r2) :
    (((db.insert r1).1).update r2).get r2.id = some r2 :=
  get_insertPair_self _ r2

/-- C2 witness at concrete records. -/
theorem update_last_write_wins_witness :
    ((⟨1, "EUR/USD", 108⟩ : ForexPair).id = (⟨1, "EUR/USD", 109⟩ : ForexPair).id ∧
      (⟨1, "EUR/USD", 108⟩ : ForexPair) ≠ (⟨1, "EUR/USD", 109⟩ : ForexPair)) ∧
    ((Database.new.insert ⟨1, "EUR/USD", 108⟩).1.update ⟨1, "EUR/USD", 109⟩).get 1 =
      some ⟨1, "EUR/USD", 109⟩ :=
  ⟨⟨rfl, by decide⟩,
   update_last_write_wins Database.new ⟨1, "EUR/USD", 108⟩ ⟨1, "EUR/USD", 109⟩ rfl
     (by decide)⟩

/-- C3: after `Database::delete id`, `get id` returns `none`, whether or not
the id was present; and deleting an absent id leaves the store unchanged
(and `delete` is a total function: it signals no error). -/
theorem delete_then_get_none (db : Database) (id : Nat) :
    (db.delete id).get id = none ∧ (db.get id = none → db.delete id = db) :=
  ⟨get_delete_self db id, delete_absent_noop db id⟩

/-- C3 witness: delete on a store holding id 1, at the absent id 2. -/
theorem delete_then_get_none_witness :
    (((Database.new.insert ⟨1, "EUR/USD", 1⟩).1.delete 2).get 2 = none ∧
      ((Database.new.insert ⟨1, "EUR/USD", 1⟩).1.get 2 = none →
        (Database.new.insert ⟨1, "EUR/USD", 1⟩).1.delete 2 =
          (Database.new.insert ⟨1, "EUR/USD", 1⟩).1)) ∧
    (Database.new.insert ⟨1, "EUR/USD", 1⟩).1.delete 2 =
      (Database.new.insert ⟨1, "EUR/USD", 1⟩).1 :=
  ⟨delete_then_get_none (Database.new.insert ⟨1, "EUR/USD", 1⟩).1 2,
   (delete_then_get_none (Database.new.insert ⟨1, "EUR/USD", 1⟩).1 2).2 (by decide)⟩

/-- C6: `Database::update` on an id absent from the store creates the record
(it is not an error: `update` is total), the record is then retrievable with
the submitted fields, and `update` has identical mechanics to `insert`
(both call `forex_pairs.insert(forex_pair.id, forex_pair)`). -/
theorem update_creates_missing (db : Database) (fp : ForexPair)
    (habsent : db.get fp.id = none) :
    (db.update fp).get fp.id = some fp ∧ db.update fp = (db.insert fp).1 :=
  ⟨get_insertPair_self _ fp, rfl⟩

/-- C6 witness: update at the absent id 42 on the empty store. -/
theorem update_creates_missing_witness :
    Database.new.get 42 = none ∧
    (Database.new.update ⟨42, "USD/JPY", 150⟩).get 42 = some ⟨42, "USD/JPY", 150⟩ ∧
    Database.new.update ⟨42, "USD/JPY", 150⟩ = (Database.new.insert ⟨42, "USD/JPY", 150⟩).1 :=
  ⟨by decide,
   (update_creates_missing Database.new ⟨42, "USD/JPY", 150⟩ (by decide)).1,
   (update_creates_missing Database.new ⟨42, "USD/JPY", 150⟩ (by decide)).2⟩

/-! ### Characterisation of `get` under the store invariant -/

theorem get_eq_some_iff_mem (db : Database) (hinv : db.Inv) (i : Nat)
    (fp : ForexPair) : db.get i = some fp ↔ (i, fp) ∈ db.forex_pairs := by
  constructor
  · intro h
    unfold Database.get at h
    rcases Option.map_eq_some'.mp h with ⟨q, hq, hsnd⟩
    have hqmem := List.mem_of_find?_eq_some hq
    have hq1 : q.1 = i := by simpa using List.find?_some hq
    cases q with
    | mk a b => cases hq1; cases hsnd; exact hqmem
  · intro h
    have hsome : (db.forex_pairs.find? (fun p => p.1 == i)).isSome := by
      rw [List.find?_isSome]
      exact ⟨(i, fp), h, by simp⟩
    obtain ⟨q, hq⟩ := Option.isSome_iff_exists.mp hsome
    have hqmem := List.mem_of_find?_eq_some hq
    have hq1 : q.1 = i := by simpa using List.find?_some hq
    have hkey : q.1 = (i, fp).1 := hq1
    have hqe : q = (i, fp) :=
      List.inj_on_of_nodup_map hinv.1 hqmem h hkey
    unfold Database.get
    rw [hq, hqe]
    rfl

theorem mem_get_all_iff (db : Database) (hinv : db.Inv) (fp : ForexPair) :
    fp ∈ db.get_all ↔ db.get fp.id = some fp := by
  rw [get_eq_some_iff_mem db hinv]
  constructor
  · intro h
    rcases List.mem_map.mp h with ⟨p, hp, hsnd⟩
    have hfst : p.1 = fp.id := by rw [hinv.2 p hp, hsnd]
    rw [← hfst, ← hsnd]
    simpa using hp
  · intro h
    exact List.mem_map.mpr ⟨(fp.id, fp), h, rfl⟩

/-- C4: under the store invariant (which all reachable states satisfy),
`get_all` returns exactly one entry per id present in the store — its ids are
pairwise distinct — and a record appears in `get_all` exactly when `get` of
its id returns that very record (so no extra, missing, or corrupted
records; only the order is unspecified). -/
theorem get_all_exact (db : Database) (hinv : db.Inv) :
    (db.get_all.map ForexPair.id).Nodup ∧
    ∀ fp : ForexPair, fp ∈ db.get_all ↔ db.get fp.id = some fp := by
  constructor
  · have hmap : db.get_all.map ForexPair.id = db.forex_pairs.map Prod.fst := by
      unfold Database.get_all
      rw [List.map_map]
      exact (List.map_congr_left fun p hp => (hinv.2 p hp).symm)
    rw [hmap]
    exact hinv.1
  · exact mem_get_all_iff db hinv

/-- C4 witness at a concrete two-record store. -/
theorem get_all_exact_witness :
    (Database.mk [(1, ⟨1, "EUR/USD", 108⟩), (2, ⟨2, "GBP/USD", 127⟩)]).Inv ∧
    ((Database.mk [(1, ⟨1, "EUR/USD", 108⟩), (2, ⟨2, "GBP/USD", 127⟩)]).get_all.map
        ForexPair.id).Nodup ∧
    ∀ fp : ForexPair,
      fp ∈ (Database.mk [(1, ⟨1, "EUR/USD", 108⟩), (2, ⟨2, "GBP/USD", 127⟩)]).get_all ↔
        (Database.mk [(1, ⟨1, "EUR/USD", 108⟩), (2, ⟨2, "GBP/USD", 127⟩)]).get fp.id =
          some fp :=
  ⟨by decide,
   get_all_exact (Database.mk [(1, ⟨1, "EUR/USD", 108⟩), (2, ⟨2, "GBP/USD", 127⟩)])
     (by decide)⟩

/-! ### JSON model of serde serialization

`Database::save_to_file` calls `serde_json::to_string(&self)`; the derived
`Serialize` produces a single top-level object `{"forex_pairs": {...}}` whose
inner object is keyed by the decimal string of each `u64` map key.  The model
stays at the level of a JSON syntax tree; JSON numbers are exact rationals
(every finite `f64` is one, and `serde_json` round-trips finite `f64` values
exactly through its shortest-representation printer). -/

inductive Json where
  | null
  | bool (b : Bool)
  | num (q : Rat)
  | str (s : String)
  | arr (elems : List Json)
  | obj (fields : List (String × Json))

/-- Derived `Serialize` for `ForexPair`: an object with the three fields in
declaration order. -/
def ForexPair.toJson (fp : ForexPair) : Json :=
  .obj [("id", .num fp.id), ("pair", .str fp.pair), ("price", .num fp.price)]

/-- Derived `Serialize` for `Database`: the `forex_pairs` map as an object
keyed by the decimal string of each `u64` key. -/
def Database.toJson (db : Database) : Json :=
  .obj [("forex_pairs",
    .obj (db.forex_pairs.map fun p => (toString p.1, p.2.toJson)))]

def jNum : Json → Option Rat
  | .num q => some q
  | _ => none

def jStr : Json → Option String
  | .str s => some s
  | _ => none

def jObj : Json → Option (List (String × Json))
  | .obj fs => some fs
  | _ => none

/-- serde's deserialization of a JSON number into `u64`: accepted exactly
when it is an integer in `[0, 2^64)`. -/
def parseU64 (q : Rat) : Option Nat :=
  if q.den = 1 ∧ 0 ≤ q.num ∧ q.num < 2 ^ 64 then some q.num.toNat else none

/-- serde's deserialization of a JSON object key into a `u64` map key: the
string must be a decimal numeral whose value fits in 64 bits. -/
def parseKey (s : String) : Option Nat :=
  s.toNat?.bind fun n => if n < 2 ^ 64 then some n else none

/-- Derived `Deserialize` for `ForexPair`: field lookup by name; all three
fields required; `price` accepts any JSON number. -/
def ForexPair.fromJson (j : Json) : Option ForexPair :=
  (jObj j).bind fun fs =>
    ((fs.lookup "id").bind jNum).bind fun idQ =>
      (parseU64 idQ).bind fun i =>
        ((fs.lookup "pair").bind jStr).bind fun pr =>
          ((fs.lookup "price").bind jNum).bind fun q =>
            some ⟨i, pr, q⟩

/-- Parse the entries of the inner `forex_pairs` object in document order;
any bad key or bad record fails the whole parse, as serde does. -/
def parseEntries : List (String × Json) → Option (List (Nat × ForexPair))
  | [] => some []
  | (k, v) :: rest =>
    (parseKey k).bind fun k2 =>
      (ForexPair.fromJson v).bind fun fp =>
        (parseEntries rest).bind fun tail => some ((k2, fp) :: tail)

/-- Derived `Deserialize` for `Database`: the `forex_pairs` field must be an
object; its entries are inserted into the map in document order. -/
def Database.fromJson (j : Json) : Option Database :=
  (jObj j).bind fun fs =>
    ((fs.lookup "forex_pairs").bind jObj).bind fun entries =>
      (parseEntries entries).bind fun parsed =>
        some ⟨parsed.foldl (fun m kv => insertPair m kv.1 kv.2) []⟩

/-- C7: the JSON document produced by `save_to_file` is a single top-level
object whose only key is `"forex_pairs"`; its value is an object with one
entry per stored record, keyed by the decimal string of the record's id,
whose value is an object with fields `id` (the record's id, in `u64` range
under the given bound), `pair` (the record's pair string) and `price` (the
record's price as a JSON number). -/
theorem save_json_shape (db : Database) (hinv : db.Inv)
    (hbound : ∀ p ∈ db.forex_pairs, p.1 < 2 ^ 64) :
    ∃ entries,
      db.toJson = Json.obj [("forex_pairs", Json.obj entries)] ∧
      entries.length = db.get_all.length ∧
      (∀ fp ∈ db.get_all, (toString fp.id, ForexPair.toJson fp) ∈ entries) ∧
      (∀ e ∈ entries, ∃ fp : ForexPair,
        db.get fp.id = some fp ∧ fp.id < 2 ^ 64 ∧
        e.1 = toString fp.id ∧
        e.2 = Json.obj [("id", Json.num fp.id), ("pair", Json.str fp.pair),
          ("price", Json.num fp.price)]) := by
  refine ⟨db.forex_pairs.map fun p => (toString p.1, p.2.toJson), ?_, ?_, ?_, ?_⟩
  · rfl
  · simp [Database.get_all]
  · intro fp hfp
    have hmem : (fp.id, fp) ∈ db.forex_pairs :=
      (get_eq_some_iff_mem db hinv fp.id fp).mp ((mem_get_all_iff db hinv fp).mp hfp)
    exact List.mem_map.mpr ⟨(fp.id, fp), hmem, rfl⟩
  · intro e he
    rcases List.mem_map.mp he with ⟨p, hp, hpe⟩
    refine ⟨p.2, ?_, ?_, ?_, ?_⟩
    · exact (get_eq_some_iff_mem db hinv p.2.id p.2).mpr (by
        have := hinv.2 p hp
        rw [← this]
        simpa using hp)
    · rw [← hinv.2 p hp]; exact hbound p hp
    · rw [← hpe, ← hinv.2 p hp]
    · rw [← hpe]; rfl

/-- C7 witness at a concrete one-record store. -/
theorem save_json_shape_witness :
    (Database.mk [(7, ⟨7, "EUR/USD", 108⟩)]).Inv ∧
    (∀ p ∈ (Database.mk [(7, ⟨7, "EUR/USD", 108⟩)]).forex_pairs, p.1 < 2 ^ 64) ∧
    ∃ entries,
      (Database.mk [(7, ⟨7, "EUR/USD", 108⟩)]).toJson =
        Json.obj [("forex_pairs", Json.obj entries)] ∧
      entries.length = (Database.mk [(7, ⟨7, "EUR/USD", 108⟩)]).get_all.length ∧
      (∀ fp ∈ (Database.mk [(7, ⟨7, "EUR/USD", 108⟩)]).get_all,
        (toString fp.id, ForexPair.toJson fp) ∈ entries) ∧
      (∀ e ∈ entries, ∃ fp : ForexPair,
        (Database.mk [(7, ⟨7, "EUR/USD", 108⟩)]).get fp.id = some fp ∧
        fp.id < 2 ^ 64 ∧ e.1 = toString fp.id ∧
        e.2 = Json.obj [("id", Json.num fp.id), ("pair", Json.str fp.pair),
          ("price", Json.num fp.price)]) :=
  ⟨by decide, by decide,
   save_json_shape (Database.mk [(7, ⟨7, "EUR/USD", 108⟩)]) (by decide) (by decide)⟩

/-! ### Decimal numerals: `Nat.repr` parses back with `String.toNat?`

`toString` on a `u64` key produces its decimal numeral (`Nat.repr` in the
model); serde parses it back when loading the file.  The round trip is proved
from the definitions of `Nat.toDigitsCore` and `String.toNat?`. -/

/-- The accumulator step of `String.toNat?`. -/
def decStep (n : Nat) (c : Char) : Nat := n * 10 + (c.toNat - '0'.toNat)

theorem digitChar_isDigit {d : Nat} (h : d < 10) :
    (Nat.digitChar d).isDigit = true := by
  interval_cases d <;> decide

theorem digitChar_decVal {d : Nat} (h : d < 10) :
    (Nat.digitChar d).toNat - '0'.toNat = d := by
  interval_cases d <;> decide

theorem toDigitsCore_all_digits :
    ∀ (fuel n : Nat) (ds : List Char), (∀ c ∈ ds, c.isDigit = true) →
      ∀ c ∈ Nat.toDigitsCore 10 fuel n ds, c.isDigit = true := by
  intro fuel
  induction fuel with
  | zero => intro n ds h c hc; exact h c hc
  | succ f ih =>
    intro n ds h c hc
    have hdig : ∀ c ∈ Nat.digitChar (n % 10) :: ds, c.isDigit = true := by
      intro c hc
      rcases List.mem_cons.mp hc with hc | hc
      · subst hc; exact digitChar_isDigit (Nat.mod_lt n (by norm_num))
      · exact h c hc
    unfold Nat.toDigitsCore at hc
    by_cases h0 : n / 10 = 0
    · rw [if_pos h0] at hc
      exact hdig c hc
    · rw [if_neg h0] at hc
      exact ih (n / 10) (Nat.digitChar (n % 10) :: ds) hdig c hc

theorem toDigitsCore_ne_nil :
    ∀ (f n : Nat) (ds : List Char), Nat.toDigitsCore 10 (f + 1) n ds ≠ [] := by
  intro f
  induction f with
  | zero =>
    intro n ds
    unfold Nat.toDigitsCore
    by_cases h0 : n / 10 = 0
    · rw [if_pos h0]; exact List.cons_ne_nil _ _
    · rw [if_neg h0]
      unfold Nat.toDigitsCore
      exact List.cons_ne_nil _ _
  | succ f ih =>
    intro n ds
    unfold Nat.toDigitsCore
    by_cases h0 : n / 10 = 0
    · rw [if_pos h0]; exact List.cons_ne_nil _ _
    · rw [if_neg h0]
      exact ih (n / 10) (Nat.digitChar (n % 10) :: ds)

theorem toDigitsCore_foldl_dec :
    ∀ (f n : Nat), n < 10 ^ (f + 1) → ∀ (ds : List Char) (acc : Nat),
      (Nat.toDigitsCore 10 (f + 1) n ds).foldl decStep acc =
        ds.foldl decStep (acc * 10 ^ (Nat.log 10 n + 1) + n) := by
  intro f
  induction f with
  | zero =>
    intro n hn ds acc
    have hn10 : n < 10 := by simpa using hn
    have h0 : n / 10 = 0 := Nat.div_eq_of_lt hn10
    have hlog : Nat.log 10 n = 0 := Nat.log_eq_zero_iff.mpr (Or.inl hn10)
    unfold Nat.toDigitsCore
    rw [if_pos h0, hlog, Nat.mod_eq_of_lt hn10]
    simp only [List.foldl_cons, decStep, digitChar_decVal hn10]
    norm_num
  | succ f ih =>
    intro n hn ds acc
    by_cases h0 : n / 10 = 0
    · have hn10 : n < 10 := by
        rcases Nat.lt_or_ge n 10 with h | h
        · exact h
        · exact absurd h0 (by
            have : 0 < n / 10 := Nat.div_pos h (by norm_num)
            omega)
      have hlog : Nat.log 10 n = 0 := Nat.log_eq_zero_iff.mpr (Or.inl hn10)
      unfold Nat.toDigitsCore
      rw [if_pos h0, hlog, Nat.mod_eq_of_lt hn10]
      simp only [List.foldl_cons, decStep, digitChar_decVal hn10]
      norm_num
    · have h10 : 10 ≤ n := by
        rcases Nat.lt_or_ge n 10 with h | h
        · exact absurd (Nat.div_eq_of_lt h) h0
        · exact h
      have hdivlt : n / 10 < 10 ^ (f + 1) := by
        rw [Nat.div_lt_iff_lt_mul (by norm_num : (0:Nat) < 10)]
        calc n < 10 ^ (f + 1 + 1) := hn
        _ = 10 ^ (f + 1) * 10 := by ring
      have hlog : Nat.log 10 n = Nat.log 10 (n / 10) + 1 := by
        have hpos : 0 < Nat.log 10 n := Nat.log_pos (by norm_num) h10
        have := Nat.log_div_base 10 n
        omega
      unfold Nat.toDigitsCore
      rw [if_neg h0]
      rw [ih (n / 10) hdivlt (Nat.digitChar (n % 10) :: ds) acc]
      simp only [List.foldl_cons]
      congr 1
      have hpow : (10:Nat) ^ (Nat.log 10 n + 1) = 10 ^ (Nat.log 10 (n / 10) + 1) * 10 := by
        rw [hlog, pow_succ]
      rw [hpow, ← mul_assoc]
      simp only [decStep, digitChar_decVal (Nat.mod_lt n (by norm_num))]
      generalize acc * 10 ^ (Nat.log 10 (n / 10) + 1) = A
      omega

theorem foldl_toDigits_dec (n : Nat) :
    (Nat.toDigits 10 n).foldl decStep 0 = n := by
  unfold Nat.toDigits
  have hfuel : n < 10 ^ (n + 1) :=
    lt_of_lt_of_le (Nat.lt_pow_self (by norm_num) n)
      (Nat.pow_le_pow_right (by norm_num) (Nat.le_succ n))
  rw [toDigitsCore_foldl_dec n n hfuel [] 0]
  simp

theorem toNat?_repr (n : Nat) : (Nat.repr n).toNat? = some n := by
  have hdata : (Nat.repr n).data = Nat.toDigits 10 n := rfl
  have hisNat : (Nat.repr n).isNat = true := by
    unfold String.isNat
    have hne : (Nat.repr n).isEmpty = false := by
      rw [Bool.eq_false_iff]
      intro he
      have := (String.isEmpty_iff _).mp he
      have : (Nat.repr n).data = [] := by rw [this]
      rw [hdata] at this
      exact toDigitsCore_ne_nil n n [] this
    have hall : (Nat.repr n).all Char.isDigit = true := by
      rw [String.all_eq, hdata, List.all_eq_true]
      intro c hc
      exact toDigitsCore_all_digits (n + 1) n [] (by intro c hc; cases hc) c hc
    rw [hne, hall]
    decide
  unfold String.toNat?
  rw [if_pos hisNat]
  congr 1
  have : (Nat.repr n).foldl (fun m c => m * 10 + (c.toNat - '0'.toNat)) 0 =
      (Nat.repr n).data.foldl decStep 0 := String.foldl_eq _ _ _
  rw [this, hdata]
  exact foldl_toDigits_dec n

/-! ### Deserialization inverts serialization -/

theorem parseKey_toString (k : Nat) (h : k < 2 ^ 64) :
    parseKey (toString k) = some k := by
  unfold parseKey
  rw [show toString k = Nat.repr k from rfl, toNat?_repr]
  show (if k < 2 ^ 64 then some k else none) = some k
  rw [if_pos h]

theorem parseU64_natCast (k : Nat) (h : k < 2 ^ 64) :
    parseU64 ((k : Rat)) = some k := by
  have hcond : ((k : Rat)).den = 1 ∧ 0 ≤ ((k : Rat)).num ∧
      ((k : Rat)).num < 2 ^ 64 := by
    refine ⟨by simp, by simp, ?_⟩
    rw [Rat.num_natCast]
    exact_mod_cast h
  unfold parseU64
  rw [if_pos hcond]
  simp

theorem fp_fromJson_toJson (fp : ForexPair) (h : fp.id < 2 ^ 64) :
    ForexPair.fromJson fp.toJson = some fp := by
  rw [ForexPair.fromJson, ForexPair.toJson]
  rw [show jObj (Json.obj [("id", Json.num (fp.id : Rat)), ("pair", Json.str fp.pair),
      ("price", Json.num fp.price)]) = some [("id", Json.num (fp.id : Rat)),
      ("pair", Json.str fp.pair), ("price", Json.num fp.price)] from rfl]
  rw [Option.some_bind]
  rw [show List.lookup "id" [("id", Json.num (fp.id : Rat)), ("pair", Json.str fp.pair),
      ("price", Json.num fp.price)] = some (Json.num (fp.id : Rat)) from rfl]
  rw [show (some (Json.num (fp.id : Rat))).bind jNum = some ((fp.id : Rat)) from rfl]
  rw [Option.some_bind, parseU64_natCast fp.id h, Option.some_bind]
  rw [show List.lookup "pair" [("id", Json.num (fp.id : Rat)), ("pair", Json.str fp.pair),
      ("price", Json.num fp.price)] = some (Json.str fp.pair) from rfl]
  rw [show (some (Json.str fp.pair)).bind jStr = some fp.pair from rfl]
  rw [Option.some_bind]
  rw [show List.lookup "price" [("id", Json.num (fp.id : Rat)), ("pair", Json.str fp.pair),
      ("price", Json.num fp.price)] = some (Json.num fp.price) from rfl]
  rw [show (some (Json.num fp.price)).bind jNum = some fp.price from rfl]
  rw [Option.some_bind]

theorem parseEntries_map (l : List (Nat × ForexPair))
    (h : ∀ p ∈ l, p.1 < 2 ^ 64 ∧ p.2.id < 2 ^ 64) :
    parseEntries (l.map fun p => (toString p.1, p.2.toJson)) = some l := by
  induction l with
  | nil => rfl
  | cons p rest ih =>
    simp only [List.map_cons, parseEntries]
    rw [parseKey_toString p.1 (h p (List.mem_cons_self p rest)).1,
      fp_fromJson_toJson p.2 (h p (List.mem_cons_self p rest)).2,
      ih fun q hq => h q (List.mem_cons_of_mem p hq)]
    simp

theorem foldl_insertPair_nodup :
    ∀ (l acc : List (Nat × ForexPair)), (l.map Prod.fst).Nodup →
      (∀ p ∈ l, ∀ q ∈ acc, p.1 ≠ q.1) →
      l.foldl (fun m kv => insertPair m kv.1 kv.2) acc = l.reverse ++ acc := by
  intro l
  induction l with
  | nil => intro acc h1 h2; simp
  | cons p rest ih =>
    intro acc hnodup hdisj
    rw [List.map_cons] at hnodup
    obtain ⟨hhead, htail⟩ := List.nodup_cons.mp hnodup
    simp only [List.foldl_cons]
    have hins : insertPair acc p.1 p.2 = p :: acc := by
      unfold insertPair
      rw [List.filter_eq_self.mpr fun q hq =>
        bne_iff_ne.mpr (hdisj p (List.mem_cons_self p rest) q hq).symm]
    rw [hins, ih (p :: acc) htail ?_]
    · simp
    · intro q hq r hr
      rcases List.mem_cons.mp hr with hr | hr
      · subst hr
        intro he
        exact hhead (List.mem_map.mpr ⟨q, hq, he⟩)
      · exact hdisj q (List.mem_cons_of_mem p hq) r hr

theorem db_fromJson_toJson (db : Database) (hinv : db.Inv)
    (hb : ∀ p ∈ db.forex_pairs, p.1 < 2 ^ 64) :
    Database.fromJson db.toJson = some ⟨db.forex_pairs.reverse⟩ := by
  have hb2 : ∀ p ∈ db.forex_pairs, p.1 < 2 ^ 64 ∧ p.2.id < 2 ^ 64 :=
    fun p hp => ⟨hb p hp, by rw [← hinv.2 p hp]; exact hb p hp⟩
  rw [Database.fromJson, Database.toJson]
  rw [show jObj (Json.obj [("forex_pairs",
      Json.obj (db.forex_pairs.map fun p => (toString p.1, p.2.toJson)))]) =
    some [("forex_pairs",
      Json.obj (db.forex_pairs.map fun p => (toString p.1, p.2.toJson)))] from rfl]
  rw [Option.some_bind]
  rw [show List.lookup "forex_pairs" [("forex_pairs",
      Json.obj (db.forex_pairs.map fun p => (toString p.1, p.2.toJson)))] =
    some (Json.obj (db.forex_pairs.map fun p => (toString p.1, p.2.toJson))) from rfl]
  rw [show (some (Json.obj (db.forex_pairs.map fun p =>
      (toString p.1, p.2.toJson)))).bind jObj =
    some (db.forex_pairs.map fun p => (toString p.1, p.2.toJson)) from rfl]
  rw [Option.some_bind, parseEntries_map db.forex_pairs hb2, Option.some_bind]
  rw [foldl_insertPair_nodup db.forex_pairs [] hinv.1 (by simp)]
  simp

/-- C5: persistence round trip.  Serializing the store (the document
`save_to_file` writes) and re-parsing it (`load_from_file`) succeeds and
yields a store equal to the original as a set of records: the same records
are enumerated by `get_all` and `get` agrees on every id.  No validation of
field contents is performed, so this holds for any pair string and any
price; the ids must fit in 64 bits, as `u64` guarantees in the source. -/
theorem persistence_roundtrip (db : Database) (hinv : db.Inv)
    (hbound : ∀ p ∈ db.forex_pairs, p.1 < 2 ^ 64) :
    ∃ db2, Database.fromJson db.toJson = some db2 ∧
      (∀ fp : ForexPair, fp ∈ db2.get_all ↔ fp ∈ db.get_all) ∧
      (∀ i : Nat, ∀ fp : ForexPair, db2.get i = some fp ↔ db.get i = some fp) := by
  refine ⟨⟨db.forex_pairs.reverse⟩, db_fromJson_toJson db hinv hbound, ?_, ?_⟩
  · intro fp
    simp [Database.get_all]
  · intro i fp
    have hinv2 : (Database.mk db.forex_pairs.reverse).Inv := by
      constructor
      · simpa using hinv.1
      · intro p hp
        exact hinv.2 p (List.mem_reverse.mp hp)
    rw [get_eq_some_iff_mem _ hinv2, get_eq_some_iff_mem _ hinv]
    exact List.mem_reverse

/-- C5 witness at a concrete one-record store. -/
theorem persistence_roundtrip_witness :
    (Database.mk [(1, ⟨1, "EUR/USD", 108⟩)]).Inv ∧
    (∀ p ∈ (Database.mk [(1, ⟨1, "EUR/USD", 108⟩)]).forex_pairs, p.1 < 2 ^ 64) ∧
    ∃ db2, Database.fromJson (Database.mk [(1, ⟨1, "EUR/USD", 108⟩)]).toJson =
        some db2 ∧
      (∀ fp : ForexPair,
        fp ∈ db2.get_all ↔ fp ∈ (Database.mk [(1, ⟨1, "EUR/USD", 108⟩)]).get_all) ∧
      (∀ i : Nat, ∀ fp : ForexPair,
        db2.get i = some fp ↔ (Database.mk [(1, ⟨1, "EUR/USD", 108⟩)]).get i = some fp) :=
  ⟨by decide, by decide,
   persistence_roundtrip (Database.mk [(1, ⟨1, "EUR/USD", 108⟩)]) (by decide) (by decide)⟩

/-! ### The HTTP handlers and startup

Each handler locks the shared store, performs one store operation and, for
the mutating handlers, calls `db.save_to_file().unwrap()`.  The model makes
the lock-protected state explicit (`AppState`), represents the persistence
file abstractly, and threads the success of the file write as a boolean:
`unwrap` on a failed write is a panic, modelled as a distinguished outcome
carrying the state at the moment of the panic. -/

/-- The persistence file as the loader sees it: absent, unreadable, readable
but not JSON text, or a parsed JSON document. -/
inductive FileState where
  | missing
  | unreadable
  | malformed
  | json (j : Json)

/-- `Database::load_from_file`: succeeds exactly on a readable file holding
valid JSON of the expected shape. -/
def load_from_file : FileState → Option Database
  | .json j => Database.fromJson j
  | _ => none

/-- Startup logic of `main`: `match Database::load_from_file() { Ok(db) => db,
Err(_) => Database::new() }`. -/
def startupDb (fs : FileState) : Database :=
  (load_from_file fs).getD Database.new

/-- Model of `AppState` plus the persistence file: the state a handler can
observe and change. -/
structure AppState where
  db : Database
  file : FileState

/-- The HTTP responses the handlers produce. -/
inductive Response where
  | okEmpty
  | okJson (j : Json)
  | notFound

/-- Outcome of one handler call: a response with the resulting state, or a
panic (from `unwrap` on a failed `save_to_file`) with the state at the
moment of the panic. -/
inductive HandlerResult where
  | ok (resp : Response) (st : AppState)
  | panicked (st : AppState)

/-- `create_forex_pair`: insert, then `save_to_file().unwrap()`, then 200. -/
def create_forex_pair (st : AppState) (fp : ForexPair) (writeOk : Bool) :
    HandlerResult :=
  let db2 := (st.db.insert fp).1
  if writeOk then .ok .okEmpty ⟨db2, .json db2.toJson⟩
  else .panicked ⟨db2, st.file⟩

/-- `update_forex_pair`: update, then `save_to_file().unwrap()`, then 200. -/
def update_forex_pair (st : AppState) (fp : ForexPair) (writeOk : Bool) :
    HandlerResult :=
  let db2 := st.db.update fp
  if writeOk then .ok .okEmpty ⟨db2, .json db2.toJson⟩
  else .panicked ⟨db2, st.file⟩

/-- `delete_forex_pair`: delete, then `save_to_file().unwrap()`, then 200. -/
def delete_forex_pair (st : AppState) (id : Nat) (writeOk : Bool) :
    HandlerResult :=
  let db2 := st.db.delete id
  if writeOk then .ok .okEmpty ⟨db2, .json db2.toJson⟩
  else .panicked ⟨db2, st.file⟩

/-- `read_forex_pair`: 200 with the record, or 404; no mutation, no file
write. -/
def read_forex_pair (st : AppState) (id : Nat) : HandlerResult :=
  match st.db.get id with
  | some fp => .ok (.okJson fp.toJson) st
  | none => .ok .notFound st

/-- `read_all_forex_pairs`: 200 with the JSON array of all records; no
mutation, no file write. -/
def read_all_forex_pairs (st : AppState) : HandlerResult :=
  .ok (.okJson (.arr (st.db.get_all.map ForexPair.toJson))) st

/-- C8: `load_from_file` fails exactly when the file is missing, unreadable,
not valid JSON text, or JSON that does not parse as a `Database`; and
whenever it fails, `main` starts with `Database::new()`, the empty store. -/
theorem load_failure_empty_start (fs : FileState) :
    (load_from_file fs = none ↔
      fs = .missing ∨ fs = .unreadable ∨ fs = .malformed ∨
        ∃ j, fs = .json j ∧ Database.fromJson j = none) ∧
    (load_from_file fs = none →
      startupDb fs = Database.new ∧ (startupDb fs).forex_pairs = []) := by
  cases fs with
  | missing => simp [load_from_file, startupDb, Database.new]
  | unreadable => simp [load_from_file, startupDb, Database.new]
  | malformed => simp [load_from_file, startupDb, Database.new]
  | json j =>
    constructor
    · simp [load_from_file]
    · intro h
      rw [show load_from_file (FileState.json j) = Database.fromJson j from rfl] at h
      simp [startupDb, load_from_file, h, Database.new]

/-- C8 witness: a missing file loads as a failure and startup is empty. -/
theorem load_failure_empty_start_witness :
    load_from_file .missing = none ∧
    startupDb .missing = Database.new ∧
    (startupDb .missing).forex_pairs = [] :=
  have h : load_from_file .missing = none :=
    (load_failure_empty_start .missing).1.mpr (Or.inl rfl)
  ⟨h, ((load_failure_empty_start .missing).2 h).1,
    ((load_failure_empty_start .missing).2 h).2⟩

/-- C9: in each mutating handler, when the `save_to_file` call fails, the
handler panics (`unwrap`): the outcome is a panic, not any HTTP response,
the in-memory mutation is already applied in the state at the panic (the
inserted or updated record is retrievable, the deleted record gone), and
the persistence file is left unchanged — memory and disk disagree. -/
theorem save_failure_panics (st : AppState) (fp : ForexPair) (id : Nat) :
    create_forex_pair st fp false = .panicked ⟨(st.db.insert fp).1, st.file⟩ ∧
    update_forex_pair st fp false = .panicked ⟨st.db.update fp, st.file⟩ ∧
    delete_forex_pair st id false = .panicked ⟨st.db.delete id, st.file⟩ ∧
    ((st.db.insert fp).1).get fp.id = some fp ∧
    (st.db.update fp).get fp.id = some fp ∧
    (st.db.delete id).get id = none :=
  ⟨rfl, rfl, rfl, get_insertPair_self _ fp, get_insertPair_self _ fp,
   get_delete_self st.db id⟩

/-- C10: the read handlers change nothing observable: both return an `ok`
response with the state — store and persistence file — exactly as it was
(so repeated reads agree, and only Create, Update and Delete ever write the
file, as their definitions show). -/
theorem reads_pure (st : AppState) (id : Nat) :
    (∃ resp, read_forex_pair st id = .ok resp st) ∧
    (∃ resp, read_all_forex_pairs st = .ok resp st) := by
  constructor
  · cases h : st.db.get id with
    | some fp => exact ⟨.okJson fp.toJson, by simp [read_forex_pair, h]⟩
    | none => exact ⟨.notFound, by simp [read_forex_pair, h]⟩
  · exact ⟨_, rfl⟩
